import Mathlib

/-!
Shallow embedding of the IPDSDGA simulation core: the payoff matrix
(`src/ScoreMatrix.py`), the genetic decision tree (`src/Gene.py`) and the
toroidal surface scheduler (`src/Surface.py`).

Modelling conventions: Python integers are `Int` (Lean's `%` on `Int` is
`Int.emod`, which agrees with Python's `%` for a positive modulus); Python
float arithmetic on exactly representable values is `ℚ`; a Python `list` is
`List`; a Python `set` is a duplicate-free `List` read in insertion order;
an operation that can raise an exception returns `Option` with `none`
standing for the exception.
-/

namespace ScoreMatrix

def SCORE_CC : Int := 3

def SCORE_CD : Int := 0

def SCORE_DD : Int := 1

def SCORE_DC : Int := 5

def LOSS_PER_TICK : Int := 2

/-- Embedding of `getScore` from `src/ScoreMatrix.py`: the cascade of
`if` tests over the two choice characters, with the final `else`
returning `SCORE_DD`. -/
def getScore (myChoice theirChoice : Char) : Int :=
  if myChoice = 'c' ∧ theirChoice = 'c' then SCORE_CC
  else if myChoice = 'c' ∧ theirChoice = 'd' then SCORE_CD
  else if myChoice = 'd' ∧ theirChoice = 'c' then SCORE_DC
  else SCORE_DD

end ScoreMatrix

namespace Gene

/-- Modelled from the spec: `auxiliaryGenetics.py` is not under `src/`;
its `isValidPosition(code, i)` is the bounds test used by
`Gene.get_decision` — per the spec, descent stops when the candidate
child index "is out of bounds for the current sequence length". -/
def isValidPosition (code : List Char) (i : Nat) : Bool :=
  i < code.length

/-- Embedding of `Gene.get_choice_at` from `src/Gene.py`: `self._code[x]`,
with `none` standing for a Python `IndexError`.  (The offsets reaching it
are always nonnegative, so Python's negative indexing never applies.) -/
def get_choice_at (code : List Char) (x : Nat) : Option Char :=
  code[x]?

/-- Loop body of `Gene.get_decision` from `src/Gene.py`: walk the history,
going to child `2*offset` on 'c' and `2*offset+1` otherwise, returning the
symbol at the current offset as soon as the candidate child is out of
bounds, or at the final offset when the history is exhausted. -/
def get_decision_loop (code : List Char) (history : List Char) (offset : Nat) : Option Char :=
  match history with
  | [] => get_choice_at code offset
  | x :: rest =>
    if x = 'c' then
      if ¬ isValidPosition code (2 * offset) then get_choice_at code offset
      else get_decision_loop code rest (2 * offset)
    else
      if ¬ isValidPosition code (2 * offset + 1) then get_choice_at code offset
      else get_decision_loop code rest (2 * offset + 1)

/-- Embedding of `Gene.get_decision` from `src/Gene.py`: the descent starts
at offset 1.  The history is the sequence returned by
`history.get_mem_seq()` (the `Memory` class is not under `src/`; per the
spec it is read sequentially in insertion order, so it is a `List Char`
here). -/
def get_decision (code : List Char) (history : List Char) : Option Char :=
  get_decision_loop code history 1

/-- Embedding of `Gene.get_defect_fraction` from `src/Gene.py`: count the
`'d'` symbols at indices `1 .. len-1` (the loop `for x in range(1, len)`),
then divide by `len - 1`.  Python raises `ZeroDivisionError` exactly when
`len(self._code) - 1 == 0`, modelled by `none`; for any other length the
division is returned (for length 0 this is `0 / (-1)`). -/
def get_defect_fraction (code : List Char) : Option ℚ :=
  let count_defect : Nat := (code.drop 1).countP (fun x => x = 'd')
  if (code.length : Int) - 1 = 0 then none
  else some ((count_defect : ℚ) / (((code.length : Int) - 1 : Int) : ℚ))

/-- Specification-side count for the defect fraction, phrased directly from
the words of the spec: "the number of defect symbols at indices 1 through
length−1". -/
def spec_defect_count (code : List Char) : Nat :=
  ((Finset.range code.length).filter (fun i => 1 ≤ i ∧ code[i]? = some 'd')).card

end Gene

/-- Embedding of the `Position` class (integer 2D coordinate; per the spec
it carries no implicit wraparound — wraparound is applied by `Surface` at
the point of grid indexing). -/
structure Position where
  x : Int
  y : Int
deriving DecidableEq, Repr

instance : Add Position where
  add p q := ⟨p.x + q.x, p.y + q.y⟩

/-- Modelled from the spec: `Cell.py` is not under `src/`.  A Cell carries
a unique integer id, its current `Position`, a tick-scoped score, and an
alive flag; `is_dead()` is a pure predicate, modelled by the stored flag
`dead`.  Two-parent construction recombines the parents' Genes; since only
the Surface-level claims use Cells, the model records the parents' ids and
omits the Gene/Memory payload. -/
structure Cell where
  cid : Nat
  pos : Position
  score : Int
  dead : Bool
  parents : Option (Nat × Nat) := none
deriving DecidableEq, Repr

/-- Embedding of the `Surface` class state from `src/Surface.py`
(`__init__`): `map` is a list of `height` rows, each of `width` slots, and
`_all_cells` is the auxiliary live-set, modelled as a duplicate-free list
in insertion order. -/
structure Surface where
  population : Int
  width : Nat
  height : Nat
  all_cells : List Cell
  map : List (List (Option Cell))
  ID : Nat
  total_alive : Int
  total_dead : Int
deriving DecidableEq, Repr

/-- Embedding of `neighbour_offsets` from `src/Surface.py`. -/
def neighbour_offsets : List Position :=
  [⟨-1, -1⟩, ⟨0, -1⟩, ⟨1, -1⟩,
   ⟨-1,  0⟩, ⟨0,  0⟩, ⟨1,  0⟩,
   ⟨-1,  1⟩, ⟨0,  1⟩, ⟨1,  1⟩]

/-- Row index used by `Surface.get`/`Surface.set`:
`(self.height + pos.y) % self.height`.  Python's `%` on a positive modulus
is `Int.emod`; the result is nonnegative, so `toNat` is exact. -/
def Surface.rowIdx (s : Surface) (p : Position) : Nat :=
  (((s.height : Int) + p.y) % (s.height : Int)).toNat

/-- Column index used by `Surface.get`/`Surface.set`:
`(self.width + pos.x) % self.width`. -/
def Surface.colIdx (s : Surface) (p : Position) : Nat :=
  (((s.width : Int) + p.x) % (s.width : Int)).toNat

/-- Embedding of `Surface.get` from `src/Surface.py`:
`self.map[(self.height + pos.y) % self.height][(self.width + pos.x) % self.width]`.
For a well-formed map the wrapped indices are always in bounds. -/
def Surface.get (s : Surface) (p : Position) : Option Cell :=
  (((s.map[s.rowIdx p]?).getD [])[s.colIdx p]?).join

/-- The map after the slot write performed by `Surface.set`:
`self.map[r][c] = cell` at the wrapped indices. -/
def Surface.setSlot (s : Surface) (p : Position) (v : Option Cell) : List (List (Option Cell)) :=
  s.map.set (s.rowIdx p) (((s.map[s.rowIdx p]?).getD []).set (s.colIdx p) v)

/-- Python `set.add`: insert only when not already a member. -/
def addToSet (l : List Cell) (c : Cell) : List Cell :=
  if c ∈ l then l else l ++ [c]

/-- Embedding of `Surface.set` from `src/Surface.py`.  When `c is None`
the code runs `self._all_cells.remove(self.get(pos))`, which raises
`KeyError` (modelled by `none`) when the slot is empty (`None` is never a
member of the set) or when the occupant is not in the live-set; otherwise
it runs `self._all_cells.add(c)`.  In both cases it then writes the slot
at the wrapped indices. -/
def Surface.setCell (s : Surface) (p : Position) (c : Option Cell) : Option Surface :=
  match c with
  | none =>
    match s.get p with
    | none => none
    | some occ =>
      if occ ∈ s.all_cells then
        some { s with all_cells := s.all_cells.erase occ, map := s.setSlot p none }
      else none
  | some cl =>
    some { s with all_cells := addToSet s.all_cells cl, map := s.setSlot p (some cl) }

/-- Embedding of `Surface.get_neighbours` from `src/Surface.py`: the set of
non-empty slots at the 9 neighbourhood offsets (which includes the cell
itself); the Python `set` is modelled by deduplication. -/
def Surface.get_neighbours (s : Surface) (c : Cell) : List Cell :=
  (neighbour_offsets.filterMap (fun o => s.get (c.pos + o))).dedup

/-- Candidate list built by `Surface.get_empty_neighbour_position`: the
positions `c.get_position() + offset` whose slot is empty. -/
def Surface.empty_neighbour_candidates (s : Surface) (c : Cell) : List Position :=
  neighbour_offsets.filterMap (fun o =>
    if s.get (c.pos + o) = none then some (c.pos + o) else none)

/-- Embedding of `Surface.get_empty_neighbour_position` from
`src/Surface.py`: `None` when there is no empty neighbouring slot,
otherwise `random.choice(candidates)`.  The random draw is modelled by the
parameter `rc`, applied only to the non-empty candidate list. -/
def Surface.get_empty_neighbour_position (rc : List Position → Option Position)
    (s : Surface) (c : Cell) : Option Position :=
  let candidates := s.empty_neighbour_candidates c
  if candidates.isEmpty then none else rc candidates

/-- Python `max(iterable, key=k)` (raising on an empty iterable, modelled
by `none`): keep the first element whose key is maximal, replacing the
current best only on a strictly greater key. -/
def pyMax (key : Cell → Int) : List Cell → Option Cell
  | [] => none
  | x :: xs => some (xs.foldl (fun best c => if key best < key c then c else best) x)

/-- Python `round` on an exactly representable value: round half to even. -/
def pyRound (q : ℚ) : Int :=
  let f := ⌊q⌋
  if q - f < 1 / 2 then f
  else if 1 / 2 < q - f then f + 1
  else if f % 2 = 0 then f else f + 1

/-- Modelled from the spec: the two-parent `Cell` constructor
`Cell(self.ID, open_position, c, best_neighbour)` used by
`Surface.__reproduction_tick` (`Cell.py` is not under `src/`): a fresh
Cell at the given position with reset transient state, its Gene
recombined from the two parents (the model records the parents' ids). -/
def mkOffspring (cid : Nat) (p : Position) (pa pb : Cell) : Cell :=
  { cid := cid, pos := p, score := 0, dead := false, parents := some (pa.cid, pb.cid) }

/-- Loop body of `Surface.__reproduction_tick` from `src/Surface.py` for
one candidate `c`, threading the surface and the `chosen_cells` set. -/
def reproduction_step (rc : List Position → Option Position)
    (st : Surface × List Cell) (c : Cell) : Surface × List Cell :=
  let s := st.1
  let chosen := st.2
  if c ∈ chosen then st
  else
    match s.get_empty_neighbour_position rc c with
    | none => st
    | some open_position =>
      let neighbours := s.get_neighbours c
      if neighbours.length = 0 then st
      else
        match pyMax (fun n => -n.score) neighbours with
        | none => st
        | some best_neighbour =>
          if best_neighbour ∈ chosen then st
          else
            let child := mkOffspring s.ID open_position c best_neighbour
            let s' := (s.setCell open_position (some child)).getD s
            ({ s' with ID := s'.ID + 1,
                       population := s'.population + 1,
                       total_alive := s'.total_alive + 1 },
             c :: best_neighbour :: chosen)

/-- Embedding of `Surface.__reproduction_tick` from `src/Surface.py`:
sort the live-set by descending score (Python's `sorted` with key
`-c.get_score()` is a stable ascending sort on the negated score), take
the first `round(len(self._all_cells) * ratio)` cells, and run the
candidate loop with an initially empty `chosen_cells` set.  `rr` is the
configured `reproduction_ratio`; `rc` models `random.choice`. -/
def Surface.reproduction_tick (rr : ℚ) (rc : List Position → Option Position)
    (s : Surface) : Surface :=
  let top_cells :=
    (s.all_cells.insertionSort (fun a b => -a.score ≤ -b.score)).take
      (pyRound ((s.all_cells.length : ℚ) * rr)).toNat
  (top_cells.foldl (reproduction_step rc) (s, [])).1

/-- Grid read `self.map[r][c]` at raw (unwrapped) indices, as performed by
`Surface.__death_tick`; `none` models a Python `IndexError`. -/
def gridRead (m : List (List (Option Cell))) (r c : Nat) : Option (Option Cell) :=
  (m[r]?).bind (fun row => row[c]?)

/-- One iteration of the `Surface.__death_tick` loop body at loop indices
`(x, y)`: read `self.map[x][y]`; when it holds a dead cell, write `None`
into `self.map[x][y]` and update the counters. -/
def death_step (st : Surface) (xy : Nat × Nat) : Option Surface :=
  match gridRead st.map xy.1 xy.2 with
  | none => none
  | some none => some st
  | some (some cl) =>
    if cl.dead then
      some { st with
              map := st.map.set xy.1 (((st.map[xy.1]?).getD []).set xy.2 none),
              population := st.population - 1,
              total_dead := st.total_dead + 1 }
    else some st

/-- The loop index pairs `(x, y)` visited by `Surface.__death_tick`:
`for y in range(self.height): for x in range(self.width)`. -/
def death_indices (w h : Nat) : List (Nat × Nat) :=
  (List.range h).flatMap (fun y => (List.range w).map (fun x => (x, y)))

/-- Embedding of `Surface.__death_tick` from `src/Surface.py`.  Note the
code indexes `self.map[x][y]` with `x` ranging over the width and `y` over
the height, while the map holds `height` rows of `width` slots; `none`
models the `IndexError` raised by the first out-of-bounds access. -/
def Surface.death_tick (s : Surface) : Option Surface :=
  (death_indices s.width s.height).foldlM death_step s

/-- Concrete cell: score 10, at the centre of a 3×3 surface. -/
def exC0 : Cell := ⟨0, ⟨1, 1⟩, 10, false, none⟩

/-- Concrete cell: score 5, at the corner of a 3×3 surface. -/
def exC1 : Cell := ⟨1, ⟨0, 0⟩, 5, false, none⟩

/-- Concrete cell: score 1, at the opposite corner of a 3×3 surface. -/
def exC2 : Cell := ⟨2, ⟨2, 2⟩, 1, false, none⟩

/-- Concrete 3×3 surface holding `exC0`, `exC1`, `exC2`; on a 3×3 torus
every cell is in every cell's neighbourhood. -/
def exSurfA : Surface :=
  { population := 3, width := 3, height := 3,
    all_cells := [exC0, exC1, exC2],
    map := [[some exC1, none, none],
            [none, some exC0, none],
            [none, none, some exC2]],
    ID := 3, total_alive := 3, total_dead := 0 }

/-- Concrete dead cell on a 1×1 surface. -/
def exDead : Cell := ⟨0, ⟨0, 0⟩, -4, true, none⟩

/-- Concrete 1×1 surface holding the single dead cell `exDead`. -/
def exSurfB : Surface :=
  { population := 1, width := 1, height := 1,
    all_cells := [exDead],
    map := [[some exDead]],
    ID := 1, total_alive := 1, total_dead := 0 }

/-- Concrete cell: score 10 at `(0,0)` of a 5×5 surface. -/
def exCA : Cell := ⟨0, ⟨0, 0⟩, 10, false, none⟩

/-- Concrete cell: score 5 at `(2,2)` of a 5×5 surface; its closed
neighbourhood is disjoint from that of `exCA`. -/
def exCB : Cell := ⟨1, ⟨2, 2⟩, 5, false, none⟩

/-- Concrete 5×5 surface with two cells so far apart that each one's only
neighbour is itself. -/
def exSurfC : Surface :=
  { population := 2, width := 5, height := 5,
    all_cells := [exCA, exCB],
    map := [[some exCA, none, none, none, none],
            [none, none, none, none, none],
            [none, none, some exCB, none, none],
            [none, none, none, none, none],
            [none, none, none, none, none]],
    ID := 2, total_alive := 2, total_dead := 0 }

/-- Concrete empty 2×1 surface (width 2 > height 1). -/
def exSurfD : Surface :=
  { population := 0, width := 2, height := 1,
    all_cells := [],
    map := [[none, none]],
    ID := 0, total_alive := 2, total_dead := 0 }

/-- The state produced by running the death tick on `exSurfB`: the grid
slot is cleared and the counters are updated, but the dead cell is still
in the live-set. -/
def exSurfB_after : Surface :=
  { population := 0, width := 1, height := 1,
    all_cells := [exDead],
    map := [[none]],
    ID := 1, total_alive := 1, total_dead := 1 }

/-! Helper lemmas -/

/-- The decision loop never reads outside the sequence: started at an
in-bounds offset it returns a symbol of the sequence. -/
theorem get_decision_loop_some (code : List Char) (history : List Char) :
    ∀ offset, offset < code.length →
      ∃ r, Gene.get_decision_loop code history offset = some r ∧ r ∈ code := by
  induction history with
  | nil =>
    intro offset h
    exact ⟨code[offset], by
      simp [Gene.get_decision_loop, Gene.get_choice_at, List.getElem?_eq_getElem h],
      List.getElem_mem h⟩
  | cons x rest ih =>
    intro offset h
    by_cases hx : x = 'c'
    · by_cases hv : 2 * offset < code.length
      · have hvb : Gene.isValidPosition code (2 * offset) = true := by
          simp [Gene.isValidPosition, hv]
        obtain ⟨r, hr1, hr2⟩ := ih (2 * offset) hv
        exact ⟨r, by simp [Gene.get_decision_loop, hx, hvb, hr1], hr2⟩
      · have hvb : Gene.isValidPosition code (2 * offset) = false := by
          simp [Gene.isValidPosition]; omega
        exact ⟨code[offset], by
          simp [Gene.get_decision_loop, hx, hvb, Gene.get_choice_at,
            List.getElem?_eq_getElem h],
          List.getElem_mem h⟩
    · by_cases hv : 2 * offset + 1 < code.length
      · have hvb : Gene.isValidPosition code (2 * offset + 1) = true := by
          simp [Gene.isValidPosition, hv]
        obtain ⟨r, hr1, hr2⟩ := ih (2 * offset + 1) hv
        exact ⟨r, by simp [Gene.get_decision_loop, hx, hvb, hr1], hr2⟩
      · have hvb : Gene.isValidPosition code (2 * offset + 1) = false := by
          simp [Gene.isValidPosition]; omega
        exact ⟨code[offset], by
          simp [Gene.get_decision_loop, hx, hvb, Gene.get_choice_at,
            List.getElem?_eq_getElem h],
          List.getElem_mem h⟩

/-- Counting `'d'` in a list equals counting the indices that hold `'d'`. -/
theorem countP_d_eq_card (l : List Char) :
    l.countP (fun x => x = 'd') =
      ((Finset.range l.length).filter (fun i => l[i]? = some 'd')).card := by
  induction l using List.reverseRecOn with
  | nil => simp
  | append_singleton l a ih =>
    rw [List.countP_append, List.length_append]
    simp only [List.length_singleton, Finset.range_succ, Finset.filter_insert]
    have hcong : ∀ i ∈ Finset.range l.length,
        ((l ++ [a])[i]? = some 'd') ↔ (l[i]? = some 'd') := by
      intro i hi
      rw [List.getElem?_append_left (Finset.mem_range.mp hi)]
    have hlast : (l ++ [a])[l.length]? = some a := by
      rw [List.getElem?_append_right le_rfl]
      simp
    by_cases ha : a = 'd'
    · subst ha
      rw [if_pos hlast]
      rw [Finset.card_insert_of_not_mem (by simp)]
      rw [Finset.filter_congr hcong, ← ih]
      simp [List.countP_cons]
    · have : ¬ ((l ++ [a])[l.length]? = some 'd') := by
        rw [hlast]; simp [ha]
      rw [if_neg this, Finset.filter_congr hcong, ← ih]
      simp [List.countP_cons, ha]

/-- The loop of `get_defect_fraction` counts exactly the defect symbols at
indices `1 .. length-1` of the whole sequence. -/
theorem countP_drop_one_eq_spec (code : List Char) :
    (code.drop 1).countP (fun x => x = 'd') = Gene.spec_defect_count code := by
  rw [countP_d_eq_card, List.length_drop, Gene.spec_defect_count]
  refine Finset.card_bij (fun i _ => i + 1) ?_ ?_ ?_
  · intro i hi
    simp only [Finset.mem_filter, Finset.mem_range] at hi ⊢
    obtain ⟨hi1, hi2⟩ := hi
    rw [List.getElem?_drop] at hi2
    refine ⟨by omega, by omega, ?_⟩
    rwa [Nat.add_comm 1 i] at hi2
  · intro i _ j _ h
    simpa using h
  · intro b hb
    simp only [Finset.mem_filter, Finset.mem_range] at hb ⊢
    obtain ⟨hb1, hb2, hb3⟩ := hb
    refine ⟨b - 1, ⟨by omega, ?_⟩, by omega⟩
    rw [List.getElem?_drop]
    have : 1 + (b - 1) = b := by omega
    rw [this]
    exact hb3

/-! Claim theorems for the specification -/

/-- C7: the payoff function satisfies the exhaustive table over the
two-symbol move domain: `payoff(c,c)=3`, `payoff(c,d)=0`, `payoff(d,c)=5`
and `payoff(d,d)=1`. -/
theorem getScore_payoff_table :
    ScoreMatrix.getScore 'c' 'c' = 3 ∧ ScoreMatrix.getScore 'c' 'd' = 0 ∧
    ScoreMatrix.getScore 'd' 'c' = 5 ∧ ScoreMatrix.getScore 'd' 'd' = 1 := by
  decide

/-- C10: `getScore` is total over arbitrary symbol pairs — every pair of
arguments other than `('c','c')`, `('c','d')` and `('d','c')`, including
pairs with symbols outside `{c, d}`, returns the DD payoff 1 rather than
raising an error. -/
theorem getScore_default_dd (a b : Char)
    (h1 : ¬(a = 'c' ∧ b = 'c')) (h2 : ¬(a = 'c' ∧ b = 'd'))
    (h3 : ¬(a = 'd' ∧ b = 'c')) :
    ScoreMatrix.getScore a b = 1 := by
  unfold ScoreMatrix.getScore
  rw [if_neg h1, if_neg h2, if_neg h3]
  rfl

/-- Witness for C10 at the concrete pair `('x', 'q')`, both symbols
outside `{c, d}`. -/
theorem getScore_default_dd_witness :
    ¬('x' = 'c' ∧ 'q' = 'c') ∧ ¬('x' = 'c' ∧ 'q' = 'd') ∧
    ¬('x' = 'd' ∧ 'q' = 'c') ∧ ScoreMatrix.getScore 'x' 'q' = 1 :=
  ⟨by decide, by decide, by decide,
   getScore_default_dd 'x' 'q' (by decide) (by decide) (by decide)⟩

/-- C4: for every Gene sequence of length ≥ 2 over `{c, d}` and every
history of moves drawn from `{c, d}`, the descent of `get_decision` (child
`2×offset` for cooperate, `2×offset+1` for defect, stopping at the symbol
at the current offset when the child index is out of bounds) returns a
symbol of the sequence in `{c, d}` and never indexes outside the sequence
bounds (`some` result: the single indexing operation `get_choice_at` is in
bounds). -/
theorem get_decision_in_bounds (code history : List Char)
    (hlen : 2 ≤ code.length)
    (hsym : ∀ c ∈ code, c = 'c' ∨ c = 'd')
    (hhist : ∀ m ∈ history, m = 'c' ∨ m = 'd') :
    ∃ r, Gene.get_decision code history = some r ∧ r ∈ code ∧
      (r = 'c' ∨ r = 'd') := by
  obtain ⟨r, h1, h2⟩ := get_decision_loop_some code history 1 (by omega)
  exact ⟨r, h1, h2, hsym r h2⟩

/-- Witness for C4 on the sequence `['c','d']` and the history
`['d','c']`. -/
theorem get_decision_in_bounds_witness :
    2 ≤ (['c', 'd'] : List Char).length ∧
    (∀ c ∈ (['c', 'd'] : List Char), c = 'c' ∨ c = 'd') ∧
    (∀ m ∈ (['d', 'c'] : List Char), m = 'c' ∨ m = 'd') ∧
    ∃ r, Gene.get_decision ['c', 'd'] ['d', 'c'] = some r ∧
      r ∈ (['c', 'd'] : List Char) ∧ (r = 'c' ∨ r = 'd') :=
  ⟨by decide, by decide, by decide,
   get_decision_in_bounds ['c', 'd'] ['d', 'c'] (by decide) (by decide) (by decide)⟩

/-- Counterexample to C6 as stated: on a sequence of length 0 (hence of
length ≤ 1) `get_defect_fraction` does not fail — the loop counts nothing
and Python computes `0.0 / -1.0 = -0.0`, so the call returns 0 instead of
raising. -/
theorem defect_fraction_length_zero_total :
    ([] : List Char).length ≤ 1 ∧ Gene.get_defect_fraction [] = some 0 := by
  refine ⟨by decide, ?_⟩
  norm_num [Gene.get_defect_fraction]

/-- C6 (amended): for sequences of length ≥ 2 `get_defect_fraction`
returns the number of defect symbols at indices 1 through length−1 divided
by (length−1), a value in `[0, 1]`; for length exactly 1 the operation
fails (division by zero); for length 0 it returns 0 (the empty count
divided by −1). -/
theorem defect_fraction_spec_amended (code : List Char) :
    (2 ≤ code.length →
      ∃ q, Gene.get_defect_fraction code = some q ∧
        q = (Gene.spec_defect_count code : ℚ) / ((code.length : ℚ) - 1) ∧
        0 ≤ q ∧ q ≤ 1) ∧
    (code.length = 1 → Gene.get_defect_fraction code = none) ∧
    (code.length = 0 → Gene.get_defect_fraction code = some 0) := by
  refine ⟨?_, ?_, ?_⟩
  · intro hlen
    have hne : ¬ ((code.length : Int) - 1 = 0) := by omega
    have hcast : (((code.length : Int) - 1 : Int) : ℚ) = (code.length : ℚ) - 1 := by
      push_cast
      ring
    refine ⟨(Gene.spec_defect_count code : ℚ) / ((code.length : ℚ) - 1), ?_, rfl, ?_, ?_⟩
    · simp only [Gene.get_defect_fraction, if_neg hne, countP_drop_one_eq_spec, hcast]
    · have hd : (0 : ℚ) < (code.length : ℚ) - 1 := by
        have : (2 : ℚ) ≤ (code.length : ℚ) := by exact_mod_cast hlen
        linarith
      positivity
    · have hd : (0 : ℚ) < (code.length : ℚ) - 1 := by
        have : (2 : ℚ) ≤ (code.length : ℚ) := by exact_mod_cast hlen
        linarith
      rw [div_le_one hd]
      have hcount : Gene.spec_defect_count code ≤ code.length - 1 := by
        rw [← countP_drop_one_eq_spec]
        calc (code.drop 1).countP (fun x => x = 'd') ≤ (code.drop 1).length :=
              List.countP_le_length _
          _ = code.length - 1 := List.length_drop 1 code
      have h1 : (1 : Nat) ≤ code.length := by omega
      have : (Gene.spec_defect_count code : ℚ) ≤ ((code.length - 1 : Nat) : ℚ) := by
        exact_mod_cast hcount
      rwa [Nat.cast_sub h1, Nat.cast_one] at this
  · intro hlen
    have : (code.length : Int) - 1 = 0 := by omega
    simp [Gene.get_defect_fraction, this]
  · intro hlen
    have hc : code = [] := List.length_eq_zero.mp hlen
    subst hc
    norm_num [Gene.get_defect_fraction]

/-- Witness for C6 (amended) on the concrete sequence `['c','d','d','c']`
of length 4, whose defect fraction is 2/3. -/
theorem defect_fraction_spec_amended_witness :
    2 ≤ (['c', 'd', 'd', 'c'] : List Char).length ∧
    ∃ q, Gene.get_defect_fraction ['c', 'd', 'd', 'c'] = some q ∧
      q = (Gene.spec_defect_count ['c', 'd', 'd', 'c'] : ℚ) /
        (((['c', 'd', 'd', 'c'] : List Char).length : ℚ) - 1) ∧
      0 ≤ q ∧ q ≤ 1 :=
  ⟨by decide, (defect_fraction_spec_amended ['c', 'd', 'd', 'c']).1 (by decide)⟩

/-- C5: toroidal indexing — for positive width and height and any integer
coordinates, `get(Position(x, y))` returns the same slot content as
`get(Position(x + width, y + height))`: the coordinates are wrapped modulo
width and height before indexing. -/
theorem surface_get_wraparound (s : Surface) (x y : Int)
    (hw : 0 < s.width) (hh : 0 < s.height) :
    s.get ⟨x, y⟩ = s.get ⟨x + (s.width : Int), y + (s.height : Int)⟩ := by
  have hr : ((s.height : Int) + (y + (s.height : Int))) % (s.height : Int) =
      ((s.height : Int) + y) % (s.height : Int) := by
    have h1 := @Int.add_mul_emod_self_left ((s.height : Int) + y) (s.height : Int) 1
    rw [mul_one] at h1
    have h2 : (s.height : Int) + (y + (s.height : Int)) =
        ((s.height : Int) + y) + (s.height : Int) := by ring
    rw [h2, h1]
  have hc : ((s.width : Int) + (x + (s.width : Int))) % (s.width : Int) =
      ((s.width : Int) + x) % (s.width : Int) := by
    have h1 := @Int.add_mul_emod_self_left ((s.width : Int) + x) (s.width : Int) 1
    rw [mul_one] at h1
    have h2 : (s.width : Int) + (x + (s.width : Int)) =
        ((s.width : Int) + x) + (s.width : Int) := by ring
    rw [h2, h1]
  simp only [Surface.get, Surface.rowIdx, Surface.colIdx, hr, hc]

/-- Witness for C5 on the 3×3 surface `exSurfA` at `(1, 1)`. -/
theorem surface_get_wraparound_witness :
    0 < exSurfA.width ∧ 0 < exSurfA.height ∧
    exSurfA.get ⟨1, 1⟩ = exSurfA.get ⟨1 + (exSurfA.width : Int), 1 + (exSurfA.height : Int)⟩ :=
  ⟨by decide, by decide, surface_get_wraparound exSurfA 1 1 (by decide) (by decide)⟩

/-- If the surface map has `h` rows each of width `w`, every loop index
pair has its column index below `w`, and some pair has its row index at
least `h`, then the death loop aborts with an `IndexError`. -/
theorem foldlM_death_none (w h : Nat) :
    ∀ (l : List (Nat × Nat)) (s : Surface),
      s.map.length = h → (∀ row ∈ s.map, row.length = w) →
      (∀ p ∈ l, p.2 < w) → (∃ p ∈ l, h ≤ p.1) →
      l.foldlM death_step s = none := by
  intro l
  induction l with
  | nil =>
    intro s _ _ _ hbad
    simp at hbad
  | cons p t ih =>
    intro s hlen hrow hcol hbad
    rw [List.foldlM_cons]
    by_cases hp : h ≤ p.1
    · have hnone : s.map[p.1]? = none := List.getElem?_eq_none (by omega)
      simp [death_step, gridRead, hnone]
    · push_neg at hp
      have hr : p.1 < s.map.length := by omega
      have hrowlen : s.map[p.1].length = w := hrow _ (List.getElem_mem hr)
      have hcp : p.2 < s.map[p.1].length := by
        rw [hrowlen]
        exact hcol p (List.mem_cons_self p t)
      have hread : gridRead s.map p.1 p.2 = some (s.map[p.1][p.2]) := by
        simp [gridRead, List.getElem?_eq_getElem hr, List.getElem?_eq_getElem hcp]
      have hbad' : ∃ q ∈ t, h ≤ q.1 := by
        obtain ⟨q, hq, hq2⟩ := hbad
        rcases List.mem_cons.mp hq with rfl | hq'
        · omega
        · exact ⟨q, hq', hq2⟩
      have hcol' : ∀ q ∈ t, q.2 < w := fun q hq => hcol q (List.mem_cons_of_mem p hq)
      obtain ⟨s', hs', hlen', hrow'⟩ :
          ∃ s', death_step s p = some s' ∧ s'.map.length = h ∧
            ∀ row ∈ s'.map, row.length = w := by
        cases hslot : s.map[p.1][p.2] with
        | none =>
          exact ⟨s, by simp [death_step, hread, hslot], hlen, hrow⟩
        | some cl =>
          by_cases hd : cl.dead
          · refine ⟨{ s with
                map := s.map.set p.1 (((s.map[p.1]?).getD []).set p.2 none),
                population := s.population - 1,
                total_dead := s.total_dead + 1 }, ?_, ?_, ?_⟩
            · simp [death_step, hread, hslot, hd]
            · simpa using hlen
            · intro row hmem
              simp only at hmem
              rcases List.mem_or_eq_of_mem_set hmem with h1 | h1
              · exact hrow _ h1
              · subst h1
                rw [List.length_set, List.getElem?_eq_getElem hr, Option.getD_some]
                exact hrowlen
          · exact ⟨s, by simp [death_step, hread, hslot, hd], hlen, hrow⟩
      rw [hs']
      simpa using ih s' hlen' hrow' hcol' hbad'

/-- C8: the death phase indexes the grid transposed (`map[x][y]` with `x`
over the width, `y` over the height, on a grid of `height` rows of `width`
columns), so on a well-formed surface with positive dimensions its
accesses can all be in bounds only when width ≤ height: whenever
width > height the death tick (and hence `tick` with `inters ≥ 1`)
performs an out-of-bounds grid access. -/
theorem death_tick_oob_width_gt_height (s : Surface)
    (hlen : s.map.length = s.height)
    (hrow : ∀ row ∈ s.map, row.length = s.width)
    (hh : 0 < s.height) (hwh : s.height < s.width) :
    s.death_tick = none := by
  apply foldlM_death_none s.width s.height _ s hlen hrow
  · intro p hp
    simp only [death_indices, List.mem_flatMap, List.mem_map, List.mem_range] at hp
    obtain ⟨y, hy, x, hx, rfl⟩ := hp
    simp only
    omega
  · refine ⟨(s.height, 0), ?_, le_rfl⟩
    simp only [death_indices, List.mem_flatMap, List.mem_map, List.mem_range]
    exact ⟨0, hh, s.height, hwh, rfl⟩

/-- Witness for C8 on the concrete empty 2×1 surface `exSurfD`. -/
theorem death_tick_oob_width_gt_height_witness :
    exSurfD.map.length = exSurfD.height ∧
    (∀ row ∈ exSurfD.map, row.length = exSurfD.width) ∧
    0 < exSurfD.height ∧ exSurfD.height < exSurfD.width ∧
    exSurfD.death_tick = none :=
  ⟨by decide, by decide, by decide, by decide,
   death_tick_oob_width_gt_height exSurfD (by decide) (by decide) (by decide) (by decide)⟩

/-- C2 fails on the code: on the 1×1 surface holding one cell whose
`is_dead()` is true, the death phase clears the grid slot but leaves the
dead cell in the live-set `_all_cells` (it writes `self.map[x][y] = None`
directly instead of going through `set`), so after `tick` the cell is in
the live-set while occupying no grid slot — the two views disagree. -/
theorem death_tick_live_set_divergence :
    exDead.dead = true ∧
    exSurfB.death_tick = some exSurfB_after ∧
    exDead ∈ exSurfB_after.all_cells ∧
    exSurfB_after.get ⟨0, 0⟩ = none := by
  decide

/-- Reading back the position written by `setSlot` returns the written
value (on a well-formed map the wrapped indices are in bounds). -/
theorem get_setSlot_read (s : Surface) (p : Position) (v : Option Cell)
    (hlen : s.map.length = s.height)
    (hrow : ∀ row ∈ s.map, row.length = s.width)
    (hw : 0 < s.width) (hh : 0 < s.height) :
    (((s.setSlot p v)[s.rowIdx p]?).getD [])[s.colIdx p]? = some v := by
  have hr : s.rowIdx p < s.map.length := by
    rw [hlen]
    have h0 : (s.height : Int) ≠ 0 := by
      simp only [ne_eq, Nat.cast_eq_zero]
      omega
    have h1 : ((s.height : Int) + p.y) % (s.height : Int) < (s.height : Int) :=
      Int.emod_lt_of_pos _ (by exact_mod_cast hh)
    have h2 : 0 ≤ ((s.height : Int) + p.y) % (s.height : Int) :=
      Int.emod_nonneg _ h0
    unfold Surface.rowIdx
    omega
  have hrowlen : s.map[s.rowIdx p].length = s.width := hrow _ (List.getElem_mem hr)
  have hcl : s.colIdx p < s.map[s.rowIdx p].length := by
    rw [hrowlen]
    have h0 : (s.width : Int) ≠ 0 := by
      simp only [ne_eq, Nat.cast_eq_zero]
      omega
    have h1 : ((s.width : Int) + p.x) % (s.width : Int) < (s.width : Int) :=
      Int.emod_lt_of_pos _ (by exact_mod_cast hw)
    have h2 : 0 ≤ ((s.width : Int) + p.x) % (s.width : Int) :=
      Int.emod_nonneg _ h0
    unfold Surface.colIdx
    omega
  unfold Surface.setSlot
  rw [List.getElem?_eq_getElem hr, Option.getD_some,
    List.getElem?_set_eq_of_lt _ hr, Option.getD_some,
    List.getElem?_set_eq_of_lt _ hcl]

/-- C9: `set(pos, None)` succeeds only when the slot at `pos` is occupied
(by a live-set member), in which case it removes the occupant from the
live-set and empties the slot; on an empty slot it raises (`KeyError` from
removing `None` from the live-set) instead of acting as a no-op. -/
theorem set_none_requires_occupant (s : Surface) (p : Position)
    (hlen : s.map.length = s.height)
    (hrow : ∀ row ∈ s.map, row.length = s.width)
    (hw : 0 < s.width) (hh : 0 < s.height)
    (hnd : s.all_cells.Nodup) :
    (s.get p = none → s.setCell p none = none) ∧
    (∀ c, s.get p = some c → c ∈ s.all_cells →
      ∃ s', s.setCell p none = some s' ∧ c ∉ s'.all_cells ∧ s'.get p = none) := by
  constructor
  · intro hempty
    simp [Surface.setCell, hempty]
  · intro c hocc hmem
    refine ⟨{ s with all_cells := s.all_cells.erase c, map := s.setSlot p none },
      ?_, ?_, ?_⟩
    · simp [Surface.setCell, hocc, hmem]
    · exact hnd.not_mem_erase
    · have hread := get_setSlot_read s p none hlen hrow hw hh
      simp only [Surface.get, Surface.rowIdx, Surface.colIdx, Surface.setSlot] at hread ⊢
      rw [hread]
      rfl

/-- Witness for C9 on the 3×3 surface `exSurfA` at position `(1, 1)`,
which holds `exC0`. -/
theorem set_none_requires_occupant_witness :
    exSurfA.map.length = exSurfA.height ∧
    (∀ row ∈ exSurfA.map, row.length = exSurfA.width) ∧
    0 < exSurfA.width ∧ 0 < exSurfA.height ∧ exSurfA.all_cells.Nodup ∧
    ((exSurfA.get ⟨1, 1⟩ = none → exSurfA.setCell ⟨1, 1⟩ none = none) ∧
     (∀ c, exSurfA.get ⟨1, 1⟩ = some c → c ∈ exSurfA.all_cells →
       ∃ s', exSurfA.setCell ⟨1, 1⟩ none = some s' ∧ c ∉ s'.all_cells ∧
         s'.get ⟨1, 1⟩ = none)) :=
  ⟨by decide, by decide, by decide, by decide, by decide,
   set_none_requires_occupant exSurfA ⟨1, 1⟩ (by decide) (by decide) (by decide)
     (by decide) (by decide)⟩

/-- The top-candidate count used by the reproduction tick on `exSurfA`
with ratio 1/3: `round(3 * (1/3)) = 1`. -/
theorem exSurfA_top_count :
    (pyRound ((exSurfA.all_cells.length : ℚ) * (1 / 3))).toNat = 1 := by
  have h1 : ((exSurfA.all_cells.length : ℚ) * (1 / 3)) = 1 := by
    norm_num [exSurfA]
  rw [h1]
  have hf : ⌊(1 : ℚ)⌋ = 1 := by norm_num
  simp only [pyRound, hf]
  norm_num

/-- The top-candidate count used by the reproduction tick on `exSurfC`
with ratio 3/4: Python's `round(2 * 0.75) = round(1.5) = 2` (round half
to even). -/
theorem exSurfC_top_count :
    (pyRound ((exSurfC.all_cells.length : ℚ) * (3 / 4))).toNat = 2 := by
  have h1 : ((exSurfC.all_cells.length : ℚ) * (3 / 4)) = 3 / 2 := by
    norm_num [exSurfC]
  rw [h1]
  have hf : ⌊(3 / 2 : ℚ)⌋ = 1 := by
    rw [Int.floor_eq_iff] <;> norm_num
  simp only [pyRound, hf]
  norm_num
  decide

/-- C1 fails on the code: on `exSurfA` the candidate `exC0` (score 10) has
neighbourhood `{exC1, exC0, exC2}` with scores 5, 10, 1, yet the partner
chosen by `max(neighbours, key=lambda c: -c.get_score())` is `exC2`, the
neighbour with the MINIMUM score (the negated key turns `max` into a
minimum) — the offspring records parents `(0, 2)` even though the
best-scoring neighbour is `exC0` itself (score 10 > 1). -/
theorem reproduction_partner_min_score_bug :
    pyMax (fun n => -n.score) (exSurfA.get_neighbours exC0) = some exC2 ∧
    (exSurfA.reproduction_tick (1 / 3) List.head?).all_cells =
      [exC0, exC1, exC2,
       { cid := 3, pos := ⟨1, 0⟩, score := 0, dead := false, parents := some (0, 2) }] ∧
    exC0 ∈ exSurfA.get_neighbours exC0 ∧ exC2 ∈ exSurfA.get_neighbours exC0 ∧
    exC0.score = 10 ∧ exC2.score = 1 := by
  refine ⟨by decide, ?_, by decide, by decide, by decide, by decide⟩
  unfold Surface.reproduction_tick
  rw [exSurfA_top_count]
  decide

/-- Counterexample to C3 as stated: on `exSurfC` (pre-tick population 2,
`reproduction_ratio` 3/4) the reproduction phase creates 2 offspring,
exceeding `floor(0.75 × 2) = 1`, because the code sizes the candidate
fraction with Python `round` (half to even), not `floor`. -/
theorem reproduction_births_exceed_floor_cex :
    (exSurfC.reproduction_tick (3 / 4) List.head?).population - exSurfC.population = 2 ∧
    ⌊((exSurfC.all_cells.length : ℚ) * (3 / 4))⌋ = 1 := by
  constructor
  · unfold Surface.reproduction_tick
    rw [exSurfC_top_count]
    decide
  · have h1 : ((exSurfC.all_cells.length : ℚ) * (3 / 4)) = 3 / 2 := by
      norm_num [exSurfC]
    rw [h1, Int.floor_eq_iff] <;> norm_num

/-- One loop iteration of the reproduction tick creates at most one
offspring, so the population counter grows by at most one. -/
theorem reproduction_step_population_le (rc : List Position → Option Position)
    (st : Surface × List Cell) (c : Cell) :
    ((reproduction_step rc st c).1).population ≤ st.1.population + 1 := by
  unfold reproduction_step
  by_cases h1 : c ∈ st.2
  · simp [h1]
  · simp only [h1, ite_false, if_false]
    cases h2 : st.1.get_empty_neighbour_position rc c with
    | none => simp
    | some pos =>
      by_cases h3 : (st.1.get_neighbours c).length = 0
      · simp [h3]
      · simp only [h3, ite_false, if_false]
        cases h4 : pyMax (fun n => -n.score) (st.1.get_neighbours c) with
        | none => simp
        | some best =>
          by_cases h5 : best ∈ st.2
          · simp [h5]
          · simp [h5, Surface.setCell]

/-- Folding the reproduction loop over a candidate list grows the
population counter by at most the number of candidates. -/
theorem foldl_reproduction_population_le (rc : List Position → Option Position) :
    ∀ (l : List Cell) (s : Surface) (ch : List Cell),
      ((l.foldl (reproduction_step rc) (s, ch)).1).population ≤
        s.population + (l.length : Int) := by
  intro l
  induction l with
  | nil =>
    intro s ch
    simp
  | cons c t ih =>
    intro s ch
    have h1 := reproduction_step_population_le rc (s, ch) c
    dsimp only at h1
    have h2 := ih (reproduction_step rc (s, ch) c).1 (reproduction_step rc (s, ch) c).2
    simp only [List.foldl_cons, List.length_cons]
    rw [Prod.mk.eta] at h2
    push_cast
    push_cast at h2
    omega

/-- C3 (amended): for every reproduction phase, the number of new
offspring (the growth of the population counter) is at most
`round(reproduction_ratio × pre-phase live-set size)`, where `round` is
Python's round-half-to-even (clamped at zero); the claim's `floor` bound
does not hold, see the counterexample. -/
theorem reproduction_births_le_round (rr : ℚ) (rc : List Position → Option Position)
    (s : Surface) :
    (s.reproduction_tick rr rc).population ≤
      s.population + ((pyRound ((s.all_cells.length : ℚ) * rr)).toNat : Int) := by
  simp only [Surface.reproduction_tick]
  have h := foldl_reproduction_population_le rc
    ((s.all_cells.insertionSort (fun a b => -a.score ≤ -b.score)).take
      (pyRound ((s.all_cells.length : ℚ) * rr)).toNat) s []
  have hlen : ((s.all_cells.insertionSort (fun a b => -a.score ≤ -b.score)).take
      (pyRound ((s.all_cells.length : ℚ) * rr)).toNat).length ≤
      (pyRound ((s.all_cells.length : ℚ) * rr)).toNat := by
    rw [List.length_take]
    omega
  omega
